import Mathlib

/-!
Verification of the batch-execution and caching core of the
`linkedin_sourcing_agent` repository, shallowly embedded in Lean 4.

Embedded components:
* `SmartCache` from `src/smart_cache.py`: a namespaced key/value store with
  per-namespace TTLs, backed by SQLite.  Timestamps are modelled as integers
  (seconds); ISO-formatted timestamp strings compare consistently with time
  for a fixed format, so integer comparison is faithful.  The MD5 composite
  key `md5(f"{data_type}:{identifier}")` is modelled by the pre-hash string
  `data_type ++ ":" ++ identifier` (the hash is treated as injective).
  The JSON `dumps`/`loads` round trip on serializable payloads is modelled
  by storing the payload value itself (payload type is a parameter `α`).
* `BatchProcessor._worker_loop` / `AsyncBatchProcessor` from
  `src/batch_processor.py`: the per-job worker body, the shared statistics
  update, the agent pool (a `Queue` of `max_workers` agents), and the
  cooperative scheduler's semaphore + round-robin agent selection, the last
  two as small-step transition relations over explicit states.
-/

namespace LinkedinSourcing

/-! ## Cache store (`src/smart_cache.py`) -/

/-- A row of the SQLite `cache` table:
`(key, data, cache_type, created_at, expires_at, access_count, last_accessed)`.
`α` is the payload type (the JSON value stored in the `data` column). -/
structure CacheEntry (α : Type) where
  key : String
  data : α
  cache_type : String
  created_at : Int
  expires_at : Int
  access_count : Nat
  last_accessed : Int
  deriving Repr, DecidableEq

/-- The cache table: a list of rows.  `key` is the SQL `PRIMARY KEY`, so a
well-formed store has pairwise-distinct keys (`StoreWF`). -/
abbrev Store (α : Type) := List (CacheEntry α)

/-- SQL `PRIMARY KEY` invariant: keys are pairwise distinct. -/
def StoreWF {α : Type} (s : Store α) : Prop :=
  List.Pairwise (fun e e' => e.key ≠ e'.key) s

instance {α : Type} (s : Store α) : Decidable (StoreWF s) :=
  inferInstanceAs (Decidable (List.Pairwise _ s))

/-- `SmartCache._generate_cache_key`: `md5(f"{data_type}:{identifier}")`,
modelled by the pre-hash string. -/
def generate_cache_key (data_type identifier : String) : String :=
  data_type ++ ":" ++ identifier

/-- `SmartCache.__init__`'s `self.expiration_times` table (hours). -/
def expiration_times : List (String × Int) :=
  [("linkedin_profile", 24), ("github_profile", 12), ("github_repos", 6),
   ("twitter_profile", 24), ("website_data", 48), ("search_results", 2),
   ("job_analysis", 168)]

/-- `self.expiration_times.get(data_type, 24)`. -/
def default_expiration_hours (data_type : String) : Int :=
  (expiration_times.lookup data_type).getD 24

/-- `custom_expiration or self.expiration_times.get(data_type, 24)`:
Python `or` falls through when `custom_expiration` is `None` or `0`
(falsy). -/
def resolved_expiration_hours (data_type : String) (custom : Option Int) : Int :=
  match custom with
  | some c => if c ≠ 0 then c else default_expiration_hours data_type
  | none => default_expiration_hours data_type

/-- `INSERT OR REPLACE INTO cache ... VALUES ...`: replace the row with the
same primary key if present, otherwise insert. -/
def insert_or_replace {α : Type} (s : Store α) (e : CacheEntry α) : Store α :=
  if s.any (fun x => x.key = e.key) then
    s.map (fun x => if x.key = e.key then e else x)
  else
    s ++ [e]

/-- `SmartCache.set(data_type, identifier, data, custom_expiration)`, acting
on a store at time `now` (seconds): computes the expiration as
`now + hours * 3600` and writes the row with `access_count = 0` and
`last_accessed = now`. -/
def cache_set {α : Type} (s : Store α) (data_type identifier : String) (data : α)
    (custom : Option Int) (now : Int) : Store α :=
  insert_or_replace s
    { key := generate_cache_key data_type identifier
      data := data
      cache_type := data_type
      created_at := now
      expires_at := now + resolved_expiration_hours data_type custom * 3600
      access_count := 0
      last_accessed := now }

/-- `SmartCache.get(data_type, identifier)` at time `now`:
`SELECT data, expires_at FROM cache WHERE key = ? AND expires_at > ?`;
on a hit, `UPDATE cache SET access_count = access_count + 1,
last_accessed = ? WHERE key = ?` and return the payload; otherwise the
store is untouched and the result is a miss (`none`). -/
def cache_get {α : Type} (s : Store α) (data_type identifier : String)
    (now : Int) : Option α × Store α :=
  match s.find? (fun e =>
      e.key = generate_cache_key data_type identifier && now < e.expires_at) with
  | some e =>
      (some e.data,
       s.map (fun x =>
         if x.key = e.key then
           { x with access_count := x.access_count + 1, last_accessed := now }
         else x))
  | none => (none, s)

/-- `SmartCache.clear_expired` at time `now`:
`DELETE FROM cache WHERE expires_at <= ?` and return `cursor.rowcount`
(the number of rows deleted). -/
def clear_expired {α : Type} (s : Store α) (now : Int) : Nat × Store α :=
  ((s.filter (fun e => e.expires_at ≤ now)).length,
   s.filter (fun e => ¬ e.expires_at ≤ now))

/-- Sum of `access_count` over the rows of one `cache_type` — the numerator
of `AVG(access_count)` in `get_cache_stats`'s per-type `avg_access`. -/
def sum_access_of_type {α : Type} (s : Store α) (data_type : String) : Nat :=
  ((s.filter (fun e => e.cache_type = data_type)).map
    (fun e => e.access_count)).sum

/-! ### Storage-failure wrappers (`try ... except` around every operation)

Each public cache operation wraps its body in `try/except Exception`.  A
storage-layer failure anywhere in the body is modelled by an oracle
`err : Option DbError`; the uncommitted transaction is rolled back, so the
store is unchanged on error.  The wrappers below mirror the `except` arms:
`get` degrades to a miss, `set` is logged and swallowed, `clear_expired`
returns `0`. -/

/-- A storage-layer exception (e.g. `sqlite3.OperationalError`). -/
structure DbError where
  message : String
  deriving Repr, DecidableEq

/-- Body of `SmartCache.get` as a fallible computation. -/
def cache_get_body {α : Type} (err : Option DbError) (s : Store α)
    (data_type identifier : String) (now : Int) :
    Except DbError (Option α × Store α) :=
  match err with
  | some e => .error e
  | none => .ok (cache_get s data_type identifier now)

/-- `SmartCache.get` with its `except Exception: return None` arm. -/
def cache_get_total {α : Type} (err : Option DbError) (s : Store α)
    (data_type identifier : String) (now : Int) : Option α × Store α :=
  match cache_get_body err s data_type identifier now with
  | .ok r => r
  | .error _ => (none, s)

/-- Body of `SmartCache.set` as a fallible computation. -/
def cache_set_body {α : Type} (err : Option DbError) (s : Store α)
    (data_type identifier : String) (data : α) (custom : Option Int)
    (now : Int) : Except DbError (Store α) :=
  match err with
  | some e => .error e
  | none => .ok (cache_set s data_type identifier data custom now)

/-- `SmartCache.set` with its `except Exception: pass`-style arm (the error
is logged and swallowed; the caller's control flow continues and the store
is unchanged). -/
def cache_set_total {α : Type} (err : Option DbError) (s : Store α)
    (data_type identifier : String) (data : α) (custom : Option Int)
    (now : Int) : Store α :=
  match cache_set_body err s data_type identifier data custom now with
  | .ok s' => s'
  | .error _ => s

/-- Body of `SmartCache.clear_expired` as a fallible computation. -/
def clear_expired_body {α : Type} (err : Option DbError) (s : Store α)
    (now : Int) : Except DbError (Nat × Store α) :=
  match err with
  | some e => .error e
  | none => .ok (clear_expired s now)

/-- `SmartCache.clear_expired` with its `except Exception: return 0` arm. -/
def clear_expired_total {α : Type} (err : Option DbError) (s : Store α)
    (now : Int) : Nat × Store α :=
  match clear_expired_body err s now with
  | .ok r => r
  | .error _ => (0, s)

/-- A concrete five-row store for the sweep scenario: three entries already
expired at clock 100 (`expires_at ≤ 100`) and two still valid. -/
def sample_sweep_store : Store Nat :=
  [⟨"linkedin_profile:a", 1, "linkedin_profile", 0, 200, 0, 0⟩,
   ⟨"github_profile:b", 2, "github_profile", 0, 50, 0, 0⟩,
   ⟨"github_repos:c", 3, "github_repos", 0, 80, 0, 0⟩,
   ⟨"search_results:d", 4, "search_results", 0, 100, 0, 0⟩,
   ⟨"website_data:e", 5, "website_data", 0, 300, 0, 0⟩]

/-! ## Batch processor (`src/batch_processor.py`) -/

/-- `JobRequest` dataclass (fields relevant to scheduling; the payload
strings are opaque). -/
structure JobRequest where
  job_id : String
  job_description : String
  max_candidates : Nat := 20
  priority : Nat := 1
  deriving Repr, DecidableEq

/-- The dictionary returned by `agent.process_job` — only the
`candidates_found` entry is read by the scheduler; the rest is opaque. -/
structure AgentResult where
  candidates_found : Nat
  deriving Repr, DecidableEq

/-- `JobResult` dataclass.  `processing_time` is modelled as a rational
(the claims under verification only inspect the other fields). -/
structure JobResult where
  job_id : String
  success : Bool
  result : Option AgentResult := none
  error : Option String := none
  processing_time : ℚ := 0
  candidates_found : Nat := 0
  completed_at : Option Int := none
  deriving Repr, DecidableEq

/-- Worker agents in the pool (`LinkedInSourcingAgent` instances are
opaque; an id suffices). -/
abbrev Agent := Nat

/-- The outcome of `self._process_job(agent, job_request)`: either the
result dictionary, or the exception text it raised. -/
abbrev ExecOutcome := Except String AgentResult

/-- One iteration of `BatchProcessor._worker_loop` after a job has been
dequeued, from `agent = self.agents_pool.get(timeout=5)` to
`self.job_queue.task_done()`.  Inputs: the agent pool contents at the
acquisition instant (`[]` models the pool staying empty past the 5s
timeout, so `Queue.get` raises `queue.Empty`), the dequeued job, the
execution outcome, the measured duration, and the completion clock.
Output: the `JobResult` published to `results_queue` (`none` when the
iteration publishes nothing), the pool contents afterwards, and whether
`task_done()` was called.

When the pool is empty, `queue.Empty` from `agents_pool.get` propagates
to the worker loop's `except Empty: continue` arm: no `JobResult` is
created, the agent pool is left as is, and `task_done()` is never called.
Otherwise the inner `try/except/finally` runs: success builds a
successful result, an exception builds a failed result carrying
`"Error processing job {id}: {e}"`, and the `finally` arm returns the
agent to the pool in both cases. -/
def worker_iteration (pool : List Agent) (job : JobRequest)
    (exec : ExecOutcome) (dur : ℚ) (now : Int) :
    Option JobResult × List Agent × Bool :=
  match pool with
  | [] => (none, [], false)
  | agent :: rest =>
      let job_result : JobResult :=
        match exec with
        | .ok r =>
            { job_id := job.job_id
              success := true
              result := some r
              processing_time := dur
              candidates_found := r.candidates_found
              completed_at := some now }
        | .error e =>
            { job_id := job.job_id
              success := false
              error := some ("Error processing job " ++ job.job_id ++ ": " ++ e)
              processing_time := dur
              completed_at := some now }
      (some job_result, rest ++ [agent], true)

/-- `BatchProcessor.stats` dictionary. -/
structure Stats where
  jobs_submitted : Nat := 0
  jobs_completed : Nat := 0
  jobs_failed : Nat := 0
  total_processing_time : ℚ := 0
  average_processing_time : ℚ := 0
  deriving Repr, DecidableEq

/-- The `with self.lock:` stats block at the end of a worker iteration,
exactly as written in `_worker_loop`: `jobs_completed` is incremented
unconditionally, then incremented again on success (else `jobs_failed`
is incremented); the average divides by `jobs_completed + jobs_failed`. -/
def update_stats_after_job (s : Stats) (success : Bool) (pt : ℚ) : Stats :=
  let s1 := { s with jobs_completed := s.jobs_completed + 1
                     total_processing_time := s.total_processing_time + pt }
  let s2 := if success then { s1 with jobs_completed := s1.jobs_completed + 1 }
            else { s1 with jobs_failed := s1.jobs_failed + 1 }
  let completed := s2.jobs_completed + s2.jobs_failed
  if 0 < completed then
    { s2 with average_processing_time := s2.total_processing_time / completed }
  else s2

/-- `BatchProcessor.submit_job`'s stats effect on acceptance. -/
def submit_job_stats (s : Stats) : Stats :=
  { s with jobs_submitted := s.jobs_submitted + 1 }

/-- Stats after submitting `n` jobs and then processing the dequeued jobs
whose `(success, processing_time)` outcomes are listed. -/
def run_stats (n : Nat) (outcomes : List (Bool × ℚ)) : Stats :=
  outcomes.foldl (fun s o => update_stats_after_job s o.1 o.2)
    (Nat.rec {} (fun _ s => submit_job_stats s) n)

/-! ### Agent pool as a transition system

`BatchProcessor.__init__` fills `self.agents_pool` (a `Queue` of capacity
`max_workers`) with `max_workers` distinct agents.  Workers interleave
`agents_pool.get` and `agents_pool.put` arbitrarily; the `Queue` itself is
atomic.  `PoolState` records the queued agents and the `(worker, agent)`
pairs currently checked out. -/

structure PoolState where
  pool : List Agent
  held : List (Nat × Agent)
  deriving Repr, DecidableEq

/-- Initial pool state: agents `0, …, P-1` queued, none checked out. -/
def pool_init (P : Nat) : PoolState :=
  { pool := List.range P, held := [] }

/-- Atomic pool events: `acquire w` (`agents_pool.get` by worker `w`,
removing the front agent) and `release w a` (`agents_pool.put(agent)` in
the `finally` arm, appending the agent back). -/
inductive PoolStep : PoolState → PoolState → Prop
  | acquire (w : Nat) (a : Agent) (rest : List Agent) (held : List (Nat × Agent)) :
      PoolStep ⟨a :: rest, held⟩ ⟨rest, (w, a) :: held⟩
  | release (w : Nat) (a : Agent) (pool : List Agent)
      (h1 h2 : List (Nat × Agent)) :
      PoolStep ⟨pool, h1 ++ (w, a) :: h2⟩ ⟨pool ++ [a], h1 ++ h2⟩

/-- Interleaved executions of the pool: reflexive-transitive closure of
`PoolStep`. -/
inductive PoolReaches : PoolState → PoolState → Prop
  | refl (s : PoolState) : PoolReaches s s
  | tail {s t u : PoolState} : PoolReaches s t → PoolStep t u → PoolReaches s u

/-! ### Cooperative scheduler (`AsyncBatchProcessor`)

`_process_job_async` runs under `async with self.semaphore`
(`asyncio.Semaphore(max_concurrent)`).  Inside the guarded block the agent
is chosen as `self.agents[len(self.results) % len(self.agents)]` — no await
separates the acquisition from the read of `len(self.results)`, so the pair
is one atomic event; likewise `self.results.append(job_result)` and the
semaphore release at block exit are separated by no await.  `AsyncState`
records the number of collected results, the in-flight `(job_id, agent
index)` pairs, and the semaphore's available count. -/

structure AsyncState where
  results_count : Nat
  in_flight : List (String × Nat)
  avail : Nat
  deriving Repr, DecidableEq

/-- Initial cooperative state: no results, nothing in flight, semaphore at
its bound `C = max_concurrent`. -/
def async_init (C : Nat) : AsyncState :=
  { results_count := 0, in_flight := [], avail := C }

/-- Atomic cooperative events over a pool of `P = max_concurrent` agents:
`start j` (semaphore acquired, agent index computed from the current
`len(self.results)`), and `finish j a` (result appended and semaphore
released). -/
inductive AsyncStep (P : Nat) : AsyncState → AsyncState → Prop
  | start (j : String) (r : Nat) (fl : List (String × Nat)) (n : Nat) :
      AsyncStep P ⟨r, fl, n + 1⟩ ⟨r, (j, r % P) :: fl, n⟩
  | finish (j : String) (a : Nat) (r : Nat) (f1 f2 : List (String × Nat)) (n : Nat) :
      AsyncStep P ⟨r, f1 ++ (j, a) :: f2, n⟩ ⟨r + 1, f1 ++ f2, n + 1⟩

/-- Interleaved executions of the cooperative scheduler. -/
inductive AsyncReaches (P : Nat) : AsyncState → AsyncState → Prop
  | refl (s : AsyncState) : AsyncReaches P s s
  | tail {s t u : AsyncState} :
      AsyncReaches P s t → AsyncStep P t u → AsyncReaches P s u

/-! ## Helper lemmas -/

lemma default_expiration_hours_pos (t : String) : 0 < default_expiration_hours t := by
  simp only [default_expiration_hours, expiration_times, List.lookup]
  repeat' split
  all_goals simp

lemma resolved_expiration_hours_none (t : String) :
    resolved_expiration_hours t none = default_expiration_hours t := rfl

lemma find?_map_replace {α : Type} (s : Store α) (e : CacheEntry α)
    (p : CacheEntry α → Bool) (hpe : p e = true)
    (hpk : ∀ x, p x = true → x.key = e.key)
    (hmem : ∃ x ∈ s, x.key = e.key) :
    (s.map (fun x => if x.key = e.key then e else x)).find? p = some e := by
  induction s with
  | nil => simp at hmem
  | cons x s ih =>
      by_cases hx : x.key = e.key
      · simp [List.find?, hx, hpe]
      · have hpx : ¬ p x = true := fun h => hx (hpk x h)
        simp only [List.map_cons, if_neg hx, List.find?_cons,
          Bool.eq_false_iff.mpr hpx]
        refine ih ?_
        rcases hmem with ⟨y, hy, hk⟩
        rcases List.mem_cons.mp hy with rfl | hy'
        · exact absurd hk hx
        · exact ⟨y, hy', hk⟩

lemma find?_insert_or_replace {α : Type} (s : Store α) (e : CacheEntry α)
    (p : CacheEntry α → Bool) (hpe : p e = true)
    (hpk : ∀ x, p x = true → x.key = e.key) :
    (insert_or_replace s e).find? p = some e := by
  unfold insert_or_replace
  split
  · rename_i hany
    refine find?_map_replace s e p hpe hpk ?_
    rcases List.any_eq_true.mp hany with ⟨x, hx, hk⟩
    exact ⟨x, hx, by simpa using hk⟩
  · rename_i hany
    have hall : s.find? p = none := by
      rw [List.find?_eq_none]
      intro x hx hpx
      exact hany (List.any_eq_true.mpr ⟨x, hx, by simp [hpk x hpx]⟩)
    rw [List.find?_append, hall]
    simp [List.find?, hpe]

lemma length_filter_add_length_filter_not {α : Type} (p : α → Bool) (l : List α) :
    (l.filter p).length + (l.filter (fun x => ¬ p x)).length = l.length := by
  induction l with
  | nil => rfl
  | cons x l ih => by_cases h : p x <;> simp [List.filter, h, ← ih] <;> omega

lemma find?_filter_of_imp {α : Type} (p q : α → Bool) (l : List α)
    (h : ∀ x, p x = true → q x = true) :
    (l.filter q).find? p = l.find? p := by
  induction l with
  | nil => rfl
  | cons x l ih =>
      by_cases hq : q x = true
      · by_cases hp : p x = true
        · simp [List.filter, hq, List.find?, hp]
        · simp only [List.filter_cons, if_pos hq, List.find?_cons,
            Bool.eq_false_iff.mpr hp, ih]
      · have hp : ¬ p x = true := fun hp => hq (h x hp)
        simp only [List.filter_cons, if_neg hq, ih]
        simp [List.find?, Bool.eq_false_iff.mpr hp]

lemma map_replace_of_no_key {α : Type} (s : Store α) (e : CacheEntry α)
    (h : ∀ y ∈ s, ¬ y.key = e.key) :
    s.map (fun x => if x.key = e.key then e else x) = s := by
  induction s with
  | nil => rfl
  | cons x s ih =>
      have hx := h x (by simp)
      simp only [List.map_cons, if_neg hx, List.cons.injEq, true_and]
      exact ih (fun y hy => h y (by simp [hy]))

lemma filter_key_insert_or_replace {α : Type} (s : Store α) (e : CacheEntry α)
    (hwf : StoreWF s) :
    (insert_or_replace s e).filter (fun x => x.key = e.key) = [e] := by
  unfold insert_or_replace
  split
  · rename_i hany
    rw [List.any_eq_true] at hany
    induction s with
    | nil => simp at hany
    | cons x s ih =>
        rcases List.pairwise_cons.mp hwf with ⟨hx, hwf'⟩
        by_cases hk : x.key = e.key
        · have hrest : ∀ y ∈ s, ¬ y.key = e.key := fun y hy h =>
            (hx y hy) (hk.trans h.symm)
          rw [List.map_cons, if_pos hk, map_replace_of_no_key s e hrest]
          simp only [List.filter_cons, decide_eq_true_eq, if_pos rfl]
          rw [List.filter_eq_nil_iff.mpr
            (fun y hy => by simpa using hrest y hy)]
          simp
        · rcases hany with ⟨y, hy, hky⟩
          rcases List.mem_cons.mp hy with rfl | hy'
          · exact absurd (by simpa using hky) hk
          · rw [List.map_cons, if_neg hk]
            simp only [List.filter_cons, decide_eq_true_eq, if_neg hk]
            exact ih hwf' ⟨y, hy', hky⟩
  · rename_i hany
    have hall : ∀ y ∈ s, ¬ y.key = e.key := fun y hy h =>
      hany (List.any_eq_true.mpr ⟨y, hy, by simp [h]⟩)
    rw [List.filter_append, List.filter_eq_nil_iff.mpr
      (fun y hy => by simpa using hall y hy)]
    simp

lemma filter_not_key_insert_or_replace {α : Type} (s : Store α)
    (e : CacheEntry α) :
    (insert_or_replace s e).filter (fun x => ¬ x.key = e.key)
      = s.filter (fun x => ¬ x.key = e.key) := by
  unfold insert_or_replace
  split
  · rename_i hany
    clear hany
    induction s with
    | nil => rfl
    | cons x s ih =>
        by_cases hk : x.key = e.key
        · simp only [List.map_cons, if_pos hk, List.filter_cons]
          rw [if_neg (by simp), if_neg (by simp [hk])]
          exact ih
        · simp only [List.map_cons, if_neg hk, List.filter_cons]
          rw [if_pos (by simpa using hk), if_pos (by simpa using hk)]
          rw [ih]
  · rw [List.filter_append]
    simp

lemma mem_insert_or_replace_eq {α : Type} (s : Store α) (e e' : CacheEntry α)
    (hmem : e' ∈ insert_or_replace s e) (hk : e'.key = e.key) : e' = e := by
  unfold insert_or_replace at hmem
  split at hmem
  · rcases List.mem_map.mp hmem with ⟨x, hx, hxe⟩
    by_cases h : x.key = e.key
    · rw [if_pos h] at hxe; exact hxe.symm
    · rw [if_neg h] at hxe; subst hxe; exact absurd hk h
  · rename_i hany
    rcases List.mem_append.mp hmem with h | h
    · exact absurd (List.any_eq_true.mpr ⟨e', h, by simpa using hk⟩) hany
    · simpa using h

lemma sum_access_cons {α : Type} (x : CacheEntry α) (s : Store α) (T : String) :
    sum_access_of_type (x :: s) T
      = (if x.cache_type = T then x.access_count else 0)
        + sum_access_of_type s T := by
  unfold sum_access_of_type
  by_cases h : x.cache_type = T <;> simp [List.filter_cons, h]

lemma sum_access_map_replace {α : Type} (s : Store α) (e eOld : CacheEntry α)
    (hwf : StoreWF s) (hmem : eOld ∈ s) (hkey : eOld.key = e.key)
    (htype : eOld.cache_type = e.cache_type) :
    sum_access_of_type (s.map (fun x => if x.key = e.key then e else x))
        e.cache_type + eOld.access_count
      = sum_access_of_type s e.cache_type + e.access_count := by
  induction s with
  | nil => cases hmem
  | cons x s ih =>
      rcases List.pairwise_cons.mp hwf with ⟨hx, hwf'⟩
      rcases List.mem_cons.mp hmem with rfl | hmem'
      · rw [List.map_cons, if_pos hkey, map_replace_of_no_key s e
          (fun y hy h => (hx y hy) (hkey.trans h.symm))]
        rw [sum_access_cons, sum_access_cons, if_pos rfl, if_pos htype]
        omega
      · have hxk : ¬ x.key = e.key := fun h => hx eOld hmem' (h.trans hkey.symm)
        rw [List.map_cons, if_neg hxk, sum_access_cons, sum_access_cons]
        have := ih hwf' hmem'
        omega

lemma pool_step_perm {P : Nat} {s t : PoolState} (h : PoolStep s t)
    (hs : (s.held.map Prod.snd ++ s.pool).Perm (List.range P)) :
    (t.held.map Prod.snd ++ t.pool).Perm (List.range P) := by
  cases h with
  | acquire w a rest held =>
      refine List.Perm.trans ?_ hs
      simp only [List.map_cons, List.cons_append]
      exact List.perm_middle.symm
  | release w a pool h1 h2 =>
      refine List.Perm.trans ?_ hs
      simp only [List.map_append, List.map_cons, List.append_assoc,
        List.cons_append]
      refine List.Perm.append_left (List.map Prod.snd h1) ?_
      have h3 : List.map Prod.snd h2 ++ (pool ++ [a])
          = (List.map Prod.snd h2 ++ pool) ++ [a] :=
        (List.append_assoc _ _ _).symm
      rw [h3]
      have h4 :=
        @List.perm_middle Agent a (List.map Prod.snd h2 ++ pool) []
      simpa using h4

lemma pool_reaches_perm {P : Nat} {s : PoolState}
    (h : PoolReaches (pool_init P) s) :
    (s.held.map Prod.snd ++ s.pool).Perm (List.range P) := by
  induction h with
  | refl => simp [pool_init]
  | tail _ hstep ih => exact pool_step_perm hstep ih

lemma async_step_bound {P C : Nat} {s t : AsyncState} (h : AsyncStep P s t)
    (hs : s.in_flight.length + s.avail = C) :
    t.in_flight.length + t.avail = C := by
  cases h with
  | start j r fl n => simp_all; omega
  | finish j a r f1 f2 n => simp_all [List.length_append]; omega

lemma async_reaches_bound {P C : Nat} {t : AsyncState}
    (h : AsyncReaches P (async_init C) t) :
    t.in_flight.length + t.avail = C := by
  induction h with
  | refl => simp [async_init]
  | tail _ hstep ih => exact async_step_bound hstep ih

/-! ## Claim theorems -/

/-- C3: for every namespace, identifier and (serializable) payload,
`set(namespace, identifier, payload)` followed immediately by
`get(namespace, identifier)` — same clock instant, no intervening delete,
overwrite, or clock advance — returns exactly the stored payload. -/
theorem set_then_get_roundtrip {α : Type} (s : Store α)
    (data_type identifier : String) (payload : α) (now : Int) :
    (cache_get (cache_set s data_type identifier payload none now)
        data_type identifier now).1 = some payload := by
  unfold cache_get cache_set
  rw [find?_insert_or_replace]
  · simp
    have := default_expiration_hours_pos data_type
    rw [resolved_expiration_hours_none]
    omega
  · intro x hx
    simpa using (Bool.and_elim_left hx)

/-- C4: `get(namespace, identifier)` misses exactly when every entry under
the composite key is absent or has `expires_at ≤ now` (an entry is valid
iff `now < expires_at`); a miss — in particular a `get` on an expired
entry — leaves the store untouched, and even a hit never deletes an entry:
only the explicit sweep removes entries. -/
theorem get_miss_iff_absent_or_expired {α : Type} (s : Store α)
    (data_type identifier : String) (now : Int) :
    ((cache_get s data_type identifier now).1 = none ↔
      ∀ e ∈ s, e.key = generate_cache_key data_type identifier →
        e.expires_at ≤ now)
    ∧ ((cache_get s data_type identifier now).1 = none →
        (cache_get s data_type identifier now).2 = s)
    ∧ (cache_get s data_type identifier now).2.length = s.length := by
  unfold cache_get
  rcases hf : s.find? (fun e =>
      e.key = generate_cache_key data_type identifier && now < e.expires_at)
    with - | e
  · simp only [hf]
    rw [List.find?_eq_none] at hf
    refine ⟨⟨fun _ e he hk => ?_, fun _ => by trivial⟩, by trivial, by trivial⟩
    have := hf e he
    simp [hk] at this
    omega
  · simp only [hf]
    have hmem := List.mem_of_find?_eq_some hf
    have hp := List.find?_some hf
    simp only [Bool.and_eq_true, decide_eq_true_eq] at hp
    refine ⟨⟨fun h => absurd h (by simp), fun h => ?_⟩,
      fun h => absurd h (by simp), by simp⟩
    have := h e hmem hp.1
    omega

/-- Witness for `get_miss_iff_absent_or_expired`: on a store holding one
entry that expired at time 5, a `get` at time 10 misses and the entry is
still in the store afterwards. -/
theorem get_miss_iff_absent_or_expired_witness :
    (cache_get ([⟨"linkedin_profile:u", 7, "linkedin_profile", 0, 5, 0, 0⟩] :
        Store Nat) "linkedin_profile" "u" 10).1 = none
    ∧ (cache_get ([⟨"linkedin_profile:u", 7, "linkedin_profile", 0, 5, 0, 0⟩] :
        Store Nat) "linkedin_profile" "u" 10).2
      = [⟨"linkedin_profile:u", 7, "linkedin_profile", 0, 5, 0, 0⟩] := by
  have h := get_miss_iff_absent_or_expired
    ([⟨"linkedin_profile:u", 7, "linkedin_profile", 0, 5, 0, 0⟩] : Store Nat)
    "linkedin_profile" "u" 10
  have hm := h.1.mpr (by decide)
  exact ⟨hm, h.2.1 hm⟩

/-- C5: `clear_expired` (the spec's `sweep_expired`) deletes exactly the
entries with `expires_at ≤ now`, returns the number of entries it removed,
and leaves the `get` outcome of every key unchanged at the same instant —
in particular every non-expired entry stays retrievable. -/
theorem clear_expired_exact {α : Type} (s : Store α) (now : Int)
    (data_type identifier : String) :
    (∀ e, e ∈ (clear_expired s now).2 ↔ e ∈ s ∧ now < e.expires_at)
    ∧ (clear_expired s now).1 + (clear_expired s now).2.length = s.length
    ∧ (cache_get (clear_expired s now).2 data_type identifier now).1
        = (cache_get s data_type identifier now).1 := by
  refine ⟨?_, ?_, ?_⟩
  · intro e
    unfold clear_expired
    simp only [List.mem_filter, decide_eq_true_eq]
    constructor
    · rintro ⟨h1, h2⟩; exact ⟨h1, by omega⟩
    · rintro ⟨h1, h2⟩; exact ⟨h1, by omega⟩
  · unfold clear_expired
    have := length_filter_add_length_filter_not
      (fun e : CacheEntry α => e.expires_at ≤ now) s
    simpa using this
  · have h2 : (clear_expired s now).2 = s.filter (fun e => ¬ e.expires_at ≤ now) :=
      rfl
    rw [h2]
    unfold cache_get
    rw [find?_filter_of_imp _ _ _ ?himp]
    case himp =>
      intro x hx
      simp only [Bool.and_eq_true, decide_eq_true_eq] at hx
      simp only [decide_eq_true_eq]
      omega
    rcases hf : List.find? (fun e =>
        e.key = generate_cache_key data_type identifier && now < e.expires_at) s
      with - | e <;> simp only [hf]

/-- Witness for `clear_expired_exact`: sweeping the five-row
`sample_sweep_store` (3 expired, 2 valid at clock 100) returns 3, leaves
2 rows, and preserves the `get` outcome of the valid key. -/
theorem clear_expired_exact_witness :
    (clear_expired sample_sweep_store 100).1 = 3
    ∧ (clear_expired sample_sweep_store 100).2.length = 2
    ∧ (cache_get (clear_expired sample_sweep_store 100).2
        "linkedin_profile" "a" 100).1
      = (cache_get sample_sweep_store "linkedin_profile" "a" 100).1 := by
  refine ⟨by decide, by decide, ?_⟩
  exact (clear_expired_exact sample_sweep_store 100 "linkedin_profile" "a").2.2

/-- C6 counterexample: `set` with the explicit TTL override `0` does not
compute the expiration as `now + ttl_override`: Python's
`custom_expiration or self.expiration_times.get(...)` treats `0` as falsy
and silently substitutes the namespace default (24h = 86400s), not
`now + 0`. -/
theorem set_zero_override_counterexample :
    (cache_set ([] : Store Nat) "linkedin_profile" "u" 7 (some 0) 0).map
        (fun e => e.expires_at) = [86400]
    ∧ (86400 : Int) ≠ 0 + 0 * 3600 := by
  refine ⟨by decide, by decide⟩

/-- C6 (amended): `set` overwrites any existing entry for the composite
key, so the key maps to exactly one current payload (last-writer-wins) and
all other keys are untouched; the new expiration is `now + ttl_override`
when a *nonzero* `ttl_override` is given, and `now + default_ttl(namespace)`
otherwise (also when the override is `0`, which Python's `or` treats as
absent) — `resolved_expiration_hours` is exactly that case split. -/
theorem set_overwrites_key_and_computes_expiry {α : Type} (s : Store α)
    (data_type identifier : String) (payload : α) (custom : Option Int)
    (now : Int) (hwf : StoreWF s) :
    ((cache_set s data_type identifier payload custom now).filter
        (fun e => e.key = generate_cache_key data_type identifier)).map
        (fun e => (e.data, e.expires_at))
      = [(payload, now + resolved_expiration_hours data_type custom * 3600)]
    ∧ (cache_set s data_type identifier payload custom now).filter
        (fun e => ¬ e.key = generate_cache_key data_type identifier)
      = s.filter (fun e => ¬ e.key = generate_cache_key data_type identifier) := by
  constructor
  · have h := filter_key_insert_or_replace s
      (⟨generate_cache_key data_type identifier, payload, data_type, now,
        now + resolved_expiration_hours data_type custom * 3600, 0, now⟩ :
        CacheEntry α) hwf
    unfold cache_set
    rw [h]
    simp
  · have h := filter_not_key_insert_or_replace s
      (⟨generate_cache_key data_type identifier, payload, data_type, now,
        now + resolved_expiration_hours data_type custom * 3600, 0, now⟩ :
        CacheEntry α)
    unfold cache_set
    rw [h]

/-- Witness for `set_overwrites_key_and_computes_expiry`: overwriting the
valid `linkedin_profile:a` row of `sample_sweep_store` (a well-formed
store) leaves one row under that key, holding the new payload. -/
theorem set_overwrites_key_witness :
    ((cache_set sample_sweep_store "linkedin_profile" "a" 9 none 100).filter
        (fun e => e.key = generate_cache_key "linkedin_profile" "a")).map
        (fun e => (e.data, e.expires_at))
      = [(9, 100 + resolved_expiration_hours "linkedin_profile" none * 3600)]
    ∧ (cache_set sample_sweep_store "linkedin_profile" "a" 9 none 100).filter
        (fun e => ¬ e.key = generate_cache_key "linkedin_profile" "a")
      = sample_sweep_store.filter
          (fun e => ¬ e.key = generate_cache_key "linkedin_profile" "a") :=
  set_overwrites_key_and_computes_expiry sample_sweep_store
    "linkedin_profile" "a" 9 none 100 (by decide)

/-- C7: a storage-layer error in any Cache Store operation never reaches
the caller: the `try/except` arms turn a failing read into a miss with the
store intact, swallow a failing write leaving the store as it was, and make
a failing sweep report `0` removals. -/
theorem cache_ops_never_raise {α : Type} (e : DbError) (s : Store α)
    (data_type identifier : String) (payload : α) (custom : Option Int)
    (now : Int) :
    cache_get_total (some e) s data_type identifier now = (none, s)
    ∧ cache_set_total (some e) s data_type identifier payload custom now = s
    ∧ clear_expired_total (some e) s now = (0, s) :=
  ⟨rfl, rfl, rfl⟩

/-- C10: overwriting a key discards its access history: after a `set` on a
key that already holds an entry, the stored row for that key has
`access_count = 0` and `last_accessed` equal to the write time, and the
per-namespace `AVG(access_count)` numerator of `get_cache_stats` drops by
exactly the overwritten entry's accumulated access count — per-namespace
`avg_access` reflects only accesses since each entry's most recent write. -/
theorem set_resets_access_history {α : Type} (s : Store α)
    (data_type identifier : String) (payload : α) (custom : Option Int)
    (now : Int) (eOld : CacheEntry α) (hwf : StoreWF s) (hmem : eOld ∈ s)
    (hkey : eOld.key = generate_cache_key data_type identifier)
    (htype : eOld.cache_type = data_type) :
    (∀ e' ∈ cache_set s data_type identifier payload custom now,
        e'.key = generate_cache_key data_type identifier →
          e'.access_count = 0 ∧ e'.last_accessed = now)
    ∧ sum_access_of_type (cache_set s data_type identifier payload custom now)
          data_type + eOld.access_count
        = sum_access_of_type s data_type := by
  constructor
  · intro e' he' hk
    have he := mem_insert_or_replace_eq s
      (⟨generate_cache_key data_type identifier, payload, data_type, now,
        now + resolved_expiration_hours data_type custom * 3600, 0, now⟩ :
        CacheEntry α) e' he' hk
    rw [he]
    exact ⟨rfl, rfl⟩
  · have hany : s.any (fun x =>
        x.key = generate_cache_key data_type identifier) = true :=
      List.any_eq_true.mpr ⟨eOld, hmem, by simp [hkey]⟩
    have hrepl : cache_set s data_type identifier payload custom now
        = s.map (fun x =>
            if x.key = generate_cache_key data_type identifier then
              ⟨generate_cache_key data_type identifier, payload, data_type, now,
               now + resolved_expiration_hours data_type custom * 3600, 0, now⟩
            else x) := by
      unfold cache_set insert_or_replace
      rw [if_pos hany]
    rw [hrepl]
    have h := sum_access_map_replace s
      (⟨generate_cache_key data_type identifier, payload, data_type, now,
        now + resolved_expiration_hours data_type custom * 3600, 0, now⟩ :
        CacheEntry α) eOld hwf hmem hkey htype
    simpa using h

/-- Witness for `set_resets_access_history`: overwriting the
`github_profile:b` row (access count 4) of a concrete well-formed store
resets it to 0 and removes its 4 accumulated accesses from the
`github_profile` stats numerator. -/
theorem set_resets_access_history_witness :
    (∀ e' ∈ cache_set ([⟨"github_profile:b", 2, "github_profile", 0, 50, 4, 9⟩] :
        Store Nat) "github_profile" "b" 3 none 100,
        e'.key = generate_cache_key "github_profile" "b" →
          e'.access_count = 0 ∧ e'.last_accessed = 100)
    ∧ sum_access_of_type (cache_set
          ([⟨"github_profile:b", 2, "github_profile", 0, 50, 4, 9⟩] : Store Nat)
          "github_profile" "b" 3 none 100) "github_profile" + 4
        = sum_access_of_type
            ([⟨"github_profile:b", 2, "github_profile", 0, 50, 4, 9⟩] : Store Nat)
            "github_profile" :=
  set_resets_access_history
    ([⟨"github_profile:b", 2, "github_profile", 0, 50, 4, 9⟩] : Store Nat)
    "github_profile" "b" 3 none 100
    ⟨"github_profile:b", 2, "github_profile", 0, 50, 4, 9⟩
    (by decide) (by decide) (by decide) (by decide)

/-- C1 (failing input): under the threaded scheduler, a dequeued job whose
agent acquisition times out (the pool stays empty for the 5 s timeout, so
`agents_pool.get` raises `queue.Empty`) is dropped by the worker loop's
`except Empty: continue` arm: no `JobResult` is produced for it and
`task_done()` is never called, so the batch never drains — contradicting
"every accepted job yields exactly one result, including when resource
acquisition times out". -/
theorem pool_timeout_drops_job :
    worker_iteration [] ⟨"backend-engineer-1", "Senior Backend Engineer", 10, 1⟩
      (Except.ok ⟨10⟩) 1 0 = (none, [], false) := rfl

/-- C2 (failing input): after one submitted job is dequeued and processed
successfully, the stats block of `_worker_loop` leaves
`jobs_completed = 2` and `jobs_failed = 0` (the unconditional
`jobs_completed += 1` runs, then the success arm increments it again), so
`completed + failed = 2` both differs from the 1 job dequeued and exceeds
`jobs_submitted = 1`. -/
theorem stats_double_count_after_one_job :
    (run_stats 1 [(true, 1)]).jobs_submitted = 1
    ∧ (run_stats 1 [(true, 1)]).jobs_completed = 2
    ∧ (run_stats 1 [(true, 1)]).jobs_failed = 0
    ∧ ¬ ((run_stats 1 [(true, 1)]).jobs_completed
          + (run_stats 1 [(true, 1)]).jobs_failed
        ≤ (run_stats 1 [(true, 1)]).jobs_submitted) := by
  refine ⟨rfl, rfl, rfl, by decide⟩

/-- C8: when the unit of work raises, the worker produces a `JobResult`
with `success = false` carrying the non-empty error text
`"Error processing job {id}: {e}"` instead of propagating the exception,
and the borrowed agent is back in the pool afterwards — on the success
path as well as the failure path (`finally`). -/
theorem failed_execution_yields_failed_result (agent : Agent)
    (rest : List Agent) (job : JobRequest) (err : String) (exec : ExecOutcome)
    (dur : ℚ) (now : Int) :
    ((worker_iteration (agent :: rest) job (Except.error err) dur now).1.map
        (fun jr => jr.success) = some false)
    ∧ ((worker_iteration (agent :: rest) job (Except.error err) dur now).1.map
        (fun jr => jr.error)
      = some (some ("Error processing job " ++ job.job_id ++ ": " ++ err)))
    ∧ 0 < ("Error processing job " ++ job.job_id ++ ": " ++ err).length
    ∧ agent ∈ (worker_iteration (agent :: rest) job exec dur now).2.1 := by
  refine ⟨rfl, rfl, ?_, ?_⟩
  · rw [String.length_append, String.length_append, String.length_append]
    have h21 : ("Error processing job ").length = 21 := rfl
    omega
  · cases exec <;> simp [worker_iteration]

/-- C9 (amended): in the threaded scheduler, every state reachable by
interleaved `acquire`/`release` events from the initial pool of `P`
distinct agents has at most `P` agents checked out and no agent owned by
two workers at once; in the cooperative scheduler the admission semaphore
keeps at most `C` jobs in flight — but agent exclusivity does *not* carry
over to the cooperative scheduler (see the counterexample). -/
theorem pool_bounded_and_exclusive (P : Nat) (s : PoolState)
    (h : PoolReaches (pool_init P) s) :
    s.held.length ≤ P
    ∧ (s.held.map Prod.snd).Nodup
    ∧ ∀ (C : Nat) (t : AsyncState), AsyncReaches C (async_init C) t →
        t.in_flight.length ≤ C := by
  have hp := pool_reaches_perm h
  refine ⟨?_, ?_, ?_⟩
  · have hlen := hp.length_eq
    simp only [List.length_append, List.length_map, List.length_range] at hlen
    omega
  · exact ((hp.nodup_iff).mpr (List.nodup_range P)).of_append_left
  · intro C t ht
    have := async_reaches_bound ht
    omega

/-- Witness for `pool_bounded_and_exclusive`: the state reached from a
2-agent pool after worker 0 acquires agent 0 satisfies the bound and
exclusivity. -/
theorem pool_bounded_and_exclusive_witness :
    ({ pool := [1], held := [(0, 0)] } : PoolState).held.length ≤ 2
    ∧ (({ pool := [1], held := [(0, 0)] } : PoolState).held.map Prod.snd).Nodup := by
  have hreach : PoolReaches (pool_init 2) { pool := [1], held := [(0, 0)] } :=
    PoolReaches.tail (PoolReaches.refl _) (PoolStep.acquire 0 0 [1] [])
  have h := pool_bounded_and_exclusive 2 _ hreach
  exact ⟨h.1, h.2.1⟩

/-- C9 counterexample: in the cooperative scheduler
(`AsyncBatchProcessor`, `max_concurrent = 2`), two jobs started before
either finishes both read `len(self.results) = 0` and are both assigned
agent `self.agents[0 % 2]`: the reachable state below has two distinct
in-flight jobs owning the same agent, refuting "no resource is
concurrently owned by two callers" for that scheduler. -/
theorem async_two_jobs_share_agent :
    AsyncReaches 2 (async_init 2)
      { results_count := 0, in_flight := [("j2", 0), ("j1", 0)], avail := 0 }
    ∧ ("j1", 0) ∈ [("j2", (0 : Nat)), ("j1", 0)]
    ∧ ("j2", 0) ∈ [("j2", (0 : Nat)), ("j1", 0)]
    ∧ "j1" ≠ "j2" := by
  refine ⟨?_, by decide, by decide, by decide⟩
  have h1 : AsyncStep 2 (async_init 2) ⟨0, [("j1", 0)], 1⟩ :=
    AsyncStep.start "j1" 0 [] 1
  have h2 : AsyncStep 2 ⟨0, [("j1", 0)], 1⟩ ⟨0, [("j2", 0), ("j1", 0)], 0⟩ :=
    AsyncStep.start "j2" 0 [("j1", 0)] 0
  exact AsyncReaches.tail (AsyncReaches.tail (AsyncReaches.refl _) h1) h2

end LinkedinSourcing
